import Mathlib

/-!
Verification of the run-loop and wake-signaling core of
`embassy-executor/src/arch/msp430.rs`.

The source file defines:
* a single process-wide `static SIGNAL_WORK_THREAD_MODE: AtomicBool = AtomicBool::new(false)`;
* `Executor::new()`, which registers the wake callback
  `|_| SIGNAL_WORK_THREAD_MODE.store(true, Ordering::SeqCst)` with the raw
  executor together with the context pointer `ptr::null_mut()`;
* `Executor::run(init)`, which calls `init(self.inner.spawner())` once and then
  loops forever: `self.inner.poll()`, then `critical_section::with(|_| ...)`
  whose body loads the flag and, if it is set, stores `false`, and otherwise
  executes `asm!("nop")` (the instruction `bis #16, R2` that would actually
  stop the CPU is commented out in the source with a TODO).

The shallow embedding below models the wake flag as a `Bool`, the loop as a
small-step relation over a program counter (`polling` = about to call
`poll_once`, `checking` = inside the loop body, about to enter the critical
section), and interrupt-context `signal()` calls as environment steps that may
interleave anywhere outside the critical section.  The whole critical-section
body is one atomic step of the relation: on this target `critical_section::with`
disables interrupts, so no `signal()` can land between the flag check and the
idle instruction (the source notes "if an interrupt occurred while waiting, it
will be serviced here", i.e. after the section exits).
-/

namespace Msp430

/-- Execution context pointer (`*mut ()` in the source), modelled as an
address; `0` stands for `ptr::null_mut()`. -/
abbrev Ctx := Nat

/-- The context value `ptr::null_mut()` that `Executor::new` registers. -/
def nullCtx : Ctx := 0

/-- The statics of the source file.  `msp430.rs` declares exactly one:
`SIGNAL_WORK_THREAD_MODE`. -/
inductive GlobalVar : Type
  | signalWorkThreadMode
deriving DecidableEq

/-- Initial value of `SIGNAL_WORK_THREAD_MODE`: `AtomicBool::new(false)`. -/
def SIGNAL_WORK_THREAD_MODE_initial : Bool := false

/-- The wake callback closure registered by `Executor::new`:
`|_| SIGNAL_WORK_THREAD_MODE.store(true, Ordering::SeqCst)`.
It ignores its context argument and stores `true` whatever the previous
value of the flag was.  The function returns the new flag value. -/
def wakeCallback (_ctx : Ctx) (_flag : Bool) : Bool := true

/-- The wake-relevant content of `raw::Executor` produced by
`raw::Executor::new(callback, context)`: the registered callback, the static
the callback's body writes to, and the registered context value. -/
structure RawExecutor : Type where
  wake : Ctx → Bool → Bool
  wakeTarget : GlobalVar
  context : Ctx

/-- The `Executor` struct of the source (its wake-relevant part; the
`PhantomData<*mut ()>` marker carries no data). -/
structure Executor : Type where
  inner : RawExecutor

/-- Transcription of `Executor::new()`.  The `Unit` argument stands for one
call of the constructor: every call builds the value from the same constants
(`wakeCallback` writing the single static, and the null context). -/
def Executor.new (_ : Unit) : Executor :=
  ⟨⟨wakeCallback, GlobalVar.signalWorkThreadMode, nullCtx⟩⟩

/-- The consume-if-set operation performed by the run loop inside the
critical section (lines 62–64 of the source):
`if SIGNAL_WORK_THREAD_MODE.load(SeqCst) { SIGNAL_WORK_THREAD_MODE.store(false, SeqCst) }`.
Input: the flag value; output: the value the load observed (which decides the
branch taken) and the flag value afterwards. -/
def consume_if_set (flag : Bool) : Bool × Bool :=
  if flag then (true, false) else (false, flag)

/-- Observable events of one execution of `Executor::run`. -/
inductive Event : Type
  | pollOnce
  | consumeTrue
  | waitForInterrupt
  | signal
deriving DecidableEq

/-- Program counter of the run loop: `polling` = at the top of the `loop`,
about to call `self.inner.poll()`; `checking` = after `poll` returned, about
to enter `critical_section::with`. -/
inductive Pc : Type
  | polling
  | checking
deriving DecidableEq

/-- State of the loop: program counter plus the value of
`SIGNAL_WORK_THREAD_MODE`. -/
structure LoopState : Type where
  pc : Pc
  flag : Bool
deriving DecidableEq

/-- One step of the run loop itself (lines 56–75 of the source):
* `poll`: `self.inner.poll()` — does not touch the flag;
* `csTrue`: the critical section when the load sees `true` — store `false`,
  fall out of the section and loop back to polling, no idling;
* `csWait`: the critical section when the load sees `false` — execute the
  idle instruction (`asm!("nop")`) while still inside the section, leave the
  flag untouched, then loop back to polling.
The whole critical section is a single atomic step (interrupts are deferred
while it runs). -/
inductive LoopStep : LoopState → Event → LoopState → Prop
  | poll (f : Bool) :
      LoopStep ⟨Pc.polling, f⟩ Event.pollOnce ⟨Pc.checking, f⟩
  | csTrue :
      LoopStep ⟨Pc.checking, true⟩ Event.consumeTrue ⟨Pc.polling, false⟩
  | csWait :
      LoopStep ⟨Pc.checking, false⟩ Event.waitForInterrupt ⟨Pc.polling, false⟩

/-- One step of the whole system: either the run loop steps, or an interrupt
fires and runs the registered wake callback (with the registered context, as
`raw::Executor` invokes it).  Interrupts may fire at either program point
outside the critical section. -/
inductive Step : LoopState → Event → LoopState → Prop
  | loop {s s' : LoopState} {e : Event} : LoopStep s e s' → Step s e s'
  | signal (s : LoopState) :
      Step s Event.signal
        ⟨s.pc, (Executor.new ()).inner.wake (Executor.new ()).inner.context s.flag⟩

/-- The state in which `Executor::run` enters its loop: at the top of the
loop, flag at its initial value. -/
def initialState : LoopState := ⟨Pc.polling, SIGNAL_WORK_THREAD_MODE_initial⟩

/-- Finite execution traces: `Trace s tr` means the system can start in `s`
and perform the listed events, each entry recording the state after that
event. -/
inductive Trace : LoopState → List (Event × LoopState) → Prop
  | nil (s : LoopState) : Trace s []
  | cons {s s' : LoopState} {e : Event} {tr : List (Event × LoopState)} :
      Step s e s' → Trace s' tr → Trace s ((e, s') :: tr)

/-- Events of a complete execution of `Executor::run`: line 52 runs
`init(self.inner.spawner())` once, before the loop; everything after is the
loop's trace. -/
inductive RunEvent : Type
  | initCall
  | loopEv (e : Event)
deriving DecidableEq

/-- The event sequence of `Executor::run` corresponding to a loop trace
`tr`: the one synchronous `init` call, then the loop events. -/
def runTrace (tr : List (Event × LoopState)) : List RunEvent :=
  RunEvent.initCall :: tr.map fun p => RunEvent.loopEv p.1

/-- MSP430 instructions relevant to the idle branch of the critical section:
`nop`, and `bis #16, R2` which sets the CPUOFF status bit. -/
inductive MspInstr : Type
  | nop
  | bisCpuOff
deriving DecidableEq

/-- The instruction the source actually issues in the idle branch (line 73):
`asm!("nop", options(nomem, nostack, preserves_flags))`.  The
`asm!("bis #16, R2", ...)` line above it is commented out. -/
def idleInstr : MspInstr := MspInstr.nop

/-- Whether an instruction halts the CPU's instruction stream until an
interrupt occurs.  Per the source's own comment, `bis #16, R2` "stops the
CPU" (it sets CPUOFF); `nop` does nothing and execution continues
immediately. -/
def haltsUntilInterrupt : MspInstr → Bool
  | MspInstr.nop => false
  | MspInstr.bisCpuOff => true

end Msp430

namespace Msp430

/-- Claim C2: the consume-if-set operation performed by the run loop inside
the critical section atomically reads the flag and, if it is `true`, clears
it and reports `true`; if it is `false`, it reports `false` and leaves the
flag unchanged.  (Atomicity is the critical section's: the whole check is one
`LoopStep`, see `LoopStep.csTrue`/`LoopStep.csWait`; the last two conjuncts
tie the branches of the loop's step relation to `consume_if_set`.) -/
theorem consume_if_set_spec (f : Bool) :
    (consume_if_set f).1 = f
    ∧ (f = true → consume_if_set f = (true, false))
    ∧ (f = false → consume_if_set f = (false, f))
    ∧ (∀ s' : LoopState, LoopStep ⟨Pc.checking, f⟩ Event.consumeTrue s' →
        (consume_if_set f).1 = true ∧ s'.flag = (consume_if_set f).2)
    ∧ (∀ s' : LoopState, LoopStep ⟨Pc.checking, f⟩ Event.waitForInterrupt s' →
        (consume_if_set f).1 = false ∧ s'.flag = (consume_if_set f).2) := by
  refine ⟨?_, ?_, ?_, ?_, ?_⟩
  · cases f <;> rfl
  · intro h; subst h; rfl
  · intro h; subst h; rfl
  · intro s' h
    cases h
    simp [consume_if_set]
  · intro s' h
    cases h
    simp [consume_if_set]

/-- Witness for `consume_if_set_spec`: both branches at concrete inputs. -/
theorem consume_if_set_spec_witness :
    consume_if_set true = (true, false) ∧ consume_if_set false = (false, false) :=
  ⟨(consume_if_set_spec true).2.1 rfl, (consume_if_set_spec false).2.2.1 rfl⟩

/-- Claim C5: `signal()` is idempotent.  After any call of the registered
wake callback the flag is `true` whatever its prior value; calling it twice
leaves the same state as calling it once; after two calls, one
`consume_if_set` observes `true` and clears the flag, and a second
`consume_if_set` observes `false` — the flag is a level signal, not a
counter. -/
theorem signal_idempotent (c c₁ c₂ : Ctx) (f : Bool) :
    wakeCallback c f = true
    ∧ wakeCallback c₁ (wakeCallback c₂ f) = wakeCallback c₁ f
    ∧ consume_if_set (wakeCallback c₁ (wakeCallback c₂ f)) = (true, false)
    ∧ consume_if_set (consume_if_set (wakeCallback c₁ (wakeCallback c₂ f))).2
        = (false, false) :=
  ⟨rfl, rfl, rfl, rfl⟩

/-- Claim C6: starting from a state in which the flag is set, two consecutive
`consume_if_set` operations with no intervening `signal` return `true` then
`false`. -/
theorem consume_twice_true_then_false :
    (consume_if_set true).1 = true
    ∧ (consume_if_set (consume_if_set true).2).1 = false :=
  ⟨rfl, rfl⟩

/-- Any step labelled `signal` leaves the flag set: the registered callback
stores `true` unconditionally. -/
theorem step_signal_flag {s s' : LoopState} (h : Step s Event.signal s') :
    s'.flag = true := by
  cases h with
  | loop l => cases l
  | signal => rfl

/-- Any step labelled `waitForInterrupt` comes from the idle branch of the
critical section: it returns to `polling`, it leaves the flag unchanged, and
it can only fire when the flag is clear. -/
theorem step_wait_post {s s' : LoopState} (h : Step s Event.waitForInterrupt s') :
    s'.pc = Pc.polling ∧ s'.flag = s.flag ∧ s.flag = false := by
  cases h with
  | loop l =>
    cases l
    exact ⟨rfl, rfl, rfl⟩

/-- While the flag is set it stays set until the consume step clears it: in
any trace from a state with the flag set, an idle step can only occur after a
`consumeTrue` step. -/
theorem consume_before_wait_of_flag :
    ∀ {s : LoopState} {tr : List (Event × LoopState)}, Trace s tr →
    s.flag = true →
    ∀ (j : Nat) (sj : LoopState), tr[j]? = some (Event.waitForInterrupt, sj) →
    ∃ (k : Nat) (sk : LoopState), k ≤ j ∧ tr[k]? = some (Event.consumeTrue, sk) := by
  intro s tr htr
  induction htr with
  | nil =>
    intro _ j sj hj
    simp at hj
  | cons hstep htr2 ih =>
    intro hf j sj hj
    cases j with
    | zero =>
      rw [List.getElem?_cons_zero] at hj
      simp only [Option.some.injEq, Prod.mk.injEq] at hj
      obtain ⟨rfl, rfl⟩ := hj
      cases hstep with
      | loop l =>
        cases l
        simp at hf
    | succ j =>
      rw [List.getElem?_cons_succ] at hj
      cases hstep with
      | loop l =>
        cases l with
        | poll f =>
          obtain ⟨k, sk, hk, hget⟩ := ih hf j sj hj
          exact ⟨k + 1, sk, by omega, by simpa using hget⟩
        | csTrue =>
          exact ⟨0, ⟨Pc.polling, false⟩, Nat.zero_le _, List.getElem?_cons_zero⟩
        | csWait =>
          simp at hf
      | signal =>
        obtain ⟨k, sk, hk, hget⟩ := ih rfl j sj hj
        exact ⟨k + 1, sk, by omega, by simpa using hget⟩

/-- From the top of the loop, an idle step can only occur after a poll step:
the wait instruction sits strictly inside the loop body, after `poll`. -/
theorem poll_before_wait_of_polling :
    ∀ {s : LoopState} {tr : List (Event × LoopState)}, Trace s tr →
    s.pc = Pc.polling →
    ∀ (j : Nat) (sj : LoopState), tr[j]? = some (Event.waitForInterrupt, sj) →
    ∃ (k : Nat) (sk : LoopState), k < j ∧ tr[k]? = some (Event.pollOnce, sk) := by
  intro s tr htr
  induction htr with
  | nil =>
    intro _ j sj hj
    simp at hj
  | cons hstep htr2 ih =>
    intro hpc j sj hj
    cases j with
    | zero =>
      rw [List.getElem?_cons_zero] at hj
      simp only [Option.some.injEq, Prod.mk.injEq] at hj
      obtain ⟨rfl, rfl⟩ := hj
      cases hstep with
      | loop l =>
        cases l
        simp at hpc
    | succ j =>
      rw [List.getElem?_cons_succ] at hj
      cases hstep with
      | loop l =>
        cases l with
        | poll f =>
          exact ⟨0, ⟨Pc.checking, f⟩, Nat.succ_pos _, List.getElem?_cons_zero⟩
        | csTrue => simp at hpc
        | csWait => simp at hpc
      | signal =>
        obtain ⟨k, sk, hk, hget⟩ := ih hpc j sj hj
        exact ⟨k + 1, sk, by omega, by simpa using hget⟩

/-- Claim C1: every iteration of the run loop first performs `poll_once`
exactly once (the only step available at the top of the loop), then enters
the critical section: if the flag is set the section clears it and control
returns to polling immediately with no idle step; if the flag is clear the
idle operation runs (still inside the section, as one atomic step with the
check) and control then returns to polling. -/
theorem run_loop_iteration (f : Bool) (e : Event) (s' : LoopState) :
    (LoopStep ⟨Pc.polling, f⟩ e s' ↔ e = Event.pollOnce ∧ s' = ⟨Pc.checking, f⟩)
    ∧ (LoopStep ⟨Pc.checking, true⟩ e s' ↔
        e = Event.consumeTrue ∧ s' = ⟨Pc.polling, false⟩)
    ∧ (LoopStep ⟨Pc.checking, false⟩ e s' ↔
        e = Event.waitForInterrupt ∧ s' = ⟨Pc.polling, false⟩) := by
  refine ⟨⟨?_, ?_⟩, ⟨?_, ?_⟩, ⟨?_, ?_⟩⟩
  · intro h
    cases h
    exact ⟨rfl, rfl⟩
  · rintro ⟨rfl, rfl⟩
    exact LoopStep.poll f
  · intro h
    cases h
    exact ⟨rfl, rfl⟩
  · rintro ⟨rfl, rfl⟩
    exact LoopStep.csTrue
  · intro h
    cases h
    exact ⟨rfl, rfl⟩
  · rintro ⟨rfl, rfl⟩
    exact LoopStep.csWait

/-- Witness for `run_loop_iteration`: the two critical-section branches at
their concrete states. -/
theorem run_loop_iteration_witness :
    LoopStep ⟨Pc.checking, true⟩ Event.consumeTrue ⟨Pc.polling, false⟩
    ∧ LoopStep ⟨Pc.checking, false⟩ Event.waitForInterrupt ⟨Pc.polling, false⟩ :=
  ⟨((run_loop_iteration true Event.consumeTrue ⟨Pc.polling, false⟩).2.1).mpr
      ⟨rfl, rfl⟩,
   ((run_loop_iteration false Event.waitForInterrupt ⟨Pc.polling, false⟩).2.2).mpr
      ⟨rfl, rfl⟩⟩

/-- Claim C4: the wake flag starts `false`; in every state, only the run
loop's consume step (`consumeTrue`) ever transitions the flag from `true` to
`false`; and the wake callback registered by `Executor::new` writes `true`
whatever the flag's prior value — it never writes `false`. -/
theorem wakeflag_invariant :
    initialState.flag = false
    ∧ SIGNAL_WORK_THREAD_MODE_initial = false
    ∧ (∀ (s : LoopState) (e : Event) (s' : LoopState),
        Step s e s' → s.flag = true → s'.flag = false → e = Event.consumeTrue)
    ∧ (∀ (c : Ctx) (f : Bool), wakeCallback c f = true) := by
  refine ⟨rfl, rfl, ?_, fun _ _ => rfl⟩
  intro s e s' hstep hf hf2
  cases hstep with
  | loop l =>
    cases l with
    | poll f =>
      simp at hf hf2
      rw [hf] at hf2
      exact absurd hf2 (by simp)
    | csTrue => rfl
    | csWait => simp at hf
  | signal =>
    simp [Executor.new, wakeCallback] at hf2

/-- Witness for `wakeflag_invariant`: the consume step at the concrete state
with the flag set, and the callback at concrete arguments. -/
theorem wakeflag_invariant_witness :
    Event.consumeTrue = Event.consumeTrue ∧ wakeCallback 0 false = true :=
  ⟨wakeflag_invariant.2.2.1 ⟨Pc.checking, true⟩ Event.consumeTrue
      ⟨Pc.polling, false⟩ (Step.loop LoopStep.csTrue) rfl rfl,
   wakeflag_invariant.2.2.2 0 false⟩

/-- Claim C3: in any interleaving of interrupt-context `signal()` calls with
the run loop's steps, a `signal()` occurring before the run loop commits to
waiting is observed: between the signal and any later idle step there is a
consume step that returns `true`.  The claim's proviso — no signal strictly
between the flag check and the wait instruction — holds by construction
here: both are inside `critical_section::with`, modelled as the single
atomic step `LoopStep.csWait`.  No wakeup is lost. -/
theorem signal_consumed_before_wait :
    ∀ {s : LoopState} {tr : List (Event × LoopState)}, Trace s tr →
    ∀ (i j : Nat) (si sj : LoopState), i < j →
    tr[i]? = some (Event.signal, si) →
    tr[j]? = some (Event.waitForInterrupt, sj) →
    ∃ (k : Nat) (sk : LoopState), i < k ∧ k < j ∧
      tr[k]? = some (Event.consumeTrue, sk) := by
  intro s tr htr
  induction htr with
  | nil =>
    intro i j si sj hij hi hj
    simp at hi
  | cons hstep htr2 ih =>
    intro i j si sj hij hi hj
    cases i with
    | zero =>
      rw [List.getElem?_cons_zero] at hi
      simp only [Option.some.injEq, Prod.mk.injEq] at hi
      obtain ⟨rfl, rfl⟩ := hi
      cases j with
      | zero => omega
      | succ j =>
        rw [List.getElem?_cons_succ] at hj
        have hflag := step_signal_flag hstep
        obtain ⟨k, sk, hk, hget⟩ := consume_before_wait_of_flag htr2 hflag j sj hj
        have hkj : k < j := by
          rcases Nat.lt_or_ge k j with h | h
          · exact h
          · have hkeq : k = j := Nat.le_antisymm hk h
            subst hkeq
            rw [hget] at hj
            simp at hj
        exact ⟨k + 1, sk, Nat.succ_pos _, by omega, by simpa using hget⟩
    | succ i =>
      cases j with
      | zero => omega
      | succ j =>
        rw [List.getElem?_cons_succ] at hi hj
        obtain ⟨k, sk, h1, h2, hget⟩ := ih i j si sj (by omega) hi hj
        exact ⟨k + 1, sk, by omega, by omega, by simpa using hget⟩

/-- A concrete system trace: an interrupt signals, the loop polls, consumes
the wakeup, polls again, and only then idles. -/
def exampleTraceC3 : List (Event × LoopState) :=
  [(Event.signal, ⟨Pc.polling, true⟩),
   (Event.pollOnce, ⟨Pc.checking, true⟩),
   (Event.consumeTrue, ⟨Pc.polling, false⟩),
   (Event.pollOnce, ⟨Pc.checking, false⟩),
   (Event.waitForInterrupt, ⟨Pc.polling, false⟩)]

/-- The concrete trace `exampleTraceC3` is a valid execution from the
initial state. -/
theorem exampleTraceC3_valid : Trace initialState exampleTraceC3 := by
  refine Trace.cons (Step.signal initialState) ?_
  refine Trace.cons (Step.loop (LoopStep.poll true)) ?_
  refine Trace.cons (Step.loop LoopStep.csTrue) ?_
  refine Trace.cons (Step.loop (LoopStep.poll false)) ?_
  exact Trace.cons (Step.loop LoopStep.csWait) (Trace.nil _)

/-- Witness for `signal_consumed_before_wait` on the concrete trace
`exampleTraceC3`: the signal at position 0 is consumed before the idle step
at position 4. -/
theorem signal_consumed_before_wait_witness :
    ∃ (k : Nat) (sk : LoopState), 0 < k ∧ k < 4 ∧
      exampleTraceC3[k]? = some (Event.consumeTrue, sk) :=
  signal_consumed_before_wait exampleTraceC3_valid 0 4
    ⟨Pc.polling, true⟩ ⟨Pc.polling, false⟩ (by omega) (by simp [exampleTraceC3])
    (by simp [exampleTraceC3])

/-- Claim C7: the run loop never performs the idle step twice without an
intervening `poll_once` between the two occurrences. -/
theorem no_wait_without_poll_between :
    ∀ {s : LoopState} {tr : List (Event × LoopState)}, Trace s tr →
    ∀ (i j : Nat) (si sj : LoopState), i < j →
    tr[i]? = some (Event.waitForInterrupt, si) →
    tr[j]? = some (Event.waitForInterrupt, sj) →
    ∃ (k : Nat) (sk : LoopState), i < k ∧ k < j ∧
      tr[k]? = some (Event.pollOnce, sk) := by
  intro s tr htr
  induction htr with
  | nil =>
    intro i j si sj hij hi hj
    simp at hi
  | cons hstep htr2 ih =>
    intro i j si sj hij hi hj
    cases i with
    | zero =>
      rw [List.getElem?_cons_zero] at hi
      simp only [Option.some.injEq, Prod.mk.injEq] at hi
      obtain ⟨rfl, rfl⟩ := hi
      cases j with
      | zero => omega
      | succ j =>
        rw [List.getElem?_cons_succ] at hj
        have hpc := (step_wait_post hstep).1
        obtain ⟨k, sk, hk, hget⟩ := poll_before_wait_of_polling htr2 hpc j sj hj
        exact ⟨k + 1, sk, Nat.succ_pos _, by omega, by simpa using hget⟩
    | succ i =>
      cases j with
      | zero => omega
      | succ j =>
        rw [List.getElem?_cons_succ] at hi hj
        obtain ⟨k, sk, h1, h2, hget⟩ := ih i j si sj (by omega) hi hj
        exact ⟨k + 1, sk, by omega, by omega, by simpa using hget⟩

/-- A concrete system trace with two idle steps: no signal ever arrives, so
the loop polls, idles, polls, idles. -/
def exampleTraceC7 : List (Event × LoopState) :=
  [(Event.pollOnce, ⟨Pc.checking, false⟩),
   (Event.waitForInterrupt, ⟨Pc.polling, false⟩),
   (Event.pollOnce, ⟨Pc.checking, false⟩),
   (Event.waitForInterrupt, ⟨Pc.polling, false⟩)]

/-- The concrete trace `exampleTraceC7` is a valid execution from the
initial state. -/
theorem exampleTraceC7_valid : Trace initialState exampleTraceC7 := by
  refine Trace.cons (Step.loop (LoopStep.poll false)) ?_
  refine Trace.cons (Step.loop LoopStep.csWait) ?_
  refine Trace.cons (Step.loop (LoopStep.poll false)) ?_
  exact Trace.cons (Step.loop LoopStep.csWait) (Trace.nil _)

/-- Witness for `no_wait_without_poll_between` on the concrete trace
`exampleTraceC7`: between the idle steps at positions 1 and 3 there is a
poll at position 2. -/
theorem no_wait_without_poll_between_witness :
    ∃ (k : Nat) (sk : LoopState), 1 < k ∧ k < 3 ∧
      exampleTraceC7[k]? = some (Event.pollOnce, sk) :=
  no_wait_without_poll_between exampleTraceC7_valid 1 3
    ⟨Pc.polling, false⟩ ⟨Pc.polling, false⟩ (by omega) (by simp [exampleTraceC7])
    (by simp [exampleTraceC7])

/-- No position of the mapped loop-event part of a run trace holds the
`initCall` event. -/
theorem map_loopEv_ne_initCall (l : List (Event × LoopState)) (n : Nat) :
    (l.map fun p => RunEvent.loopEv p.1)[n]? ≠ some RunEvent.initCall := by
  induction l generalizing n with
  | nil =>
    intro h
    simp at h
  | cons p l ih =>
    intro h
    cases n with
    | zero => simp at h
    | succ n =>
      rw [List.map_cons, List.getElem?_cons_succ] at h
      exact ih n h

/-- Claim C8: in the event sequence of `Executor::run`, the `init` callback
is invoked exactly once — it is the event at position 0, and at no other
position — hence before the first `poll_once`, which can only appear at a
position ≥ 1; and the run-loop state machine has no terminal state: every
loop state has an outgoing step even without any interrupt, so `run` never
returns. -/
theorem run_init_once_and_no_terminal (tr : List (Event × LoopState)) :
    (runTrace tr)[0]? = some RunEvent.initCall
    ∧ (∀ n : Nat, (runTrace tr)[n]? = some RunEvent.initCall → n = 0)
    ∧ (∀ n : Nat, (runTrace tr)[n]? = some (RunEvent.loopEv Event.pollOnce) → 1 ≤ n)
    ∧ (∀ s : LoopState, ∃ (e : Event) (s' : LoopState), LoopStep s e s') := by
  refine ⟨List.getElem?_cons_zero, ?_, ?_, ?_⟩
  · intro n h
    cases n with
    | zero => rfl
    | succ n =>
      rw [runTrace, List.getElem?_cons_succ] at h
      exact absurd h (map_loopEv_ne_initCall tr n)
  · intro n h
    cases n with
    | zero =>
      rw [runTrace, List.getElem?_cons_zero] at h
      simp at h
    | succ n => omega
  · intro s
    cases s with
    | mk pc f =>
      cases pc with
      | polling => exact ⟨Event.pollOnce, ⟨Pc.checking, f⟩, LoopStep.poll f⟩
      | checking =>
        cases f with
        | false => exact ⟨Event.waitForInterrupt, ⟨Pc.polling, false⟩, LoopStep.csWait⟩
        | true => exact ⟨Event.consumeTrue, ⟨Pc.polling, false⟩, LoopStep.csTrue⟩

/-- Witness for `run_init_once_and_no_terminal` at the empty loop trace and
the initial state. -/
theorem run_init_once_and_no_terminal_witness :
    (runTrace [])[0]? = some RunEvent.initCall
    ∧ (0 : Nat) = 0
    ∧ ∃ (e : Event) (s' : LoopState), LoopStep initialState e s' :=
  ⟨(run_init_once_and_no_terminal []).1,
   (run_init_once_and_no_terminal []).2.1 0 List.getElem?_cons_zero,
   (run_init_once_and_no_terminal []).2.2.2 initialState⟩

/-- Counterexample to claim C9 as stated: the idle operation of this
instantiation does not halt the processor's instruction stream — the
instruction actually issued is `nop` (the halting `bis #16, R2` is commented
out in the source), and `nop` does not halt until an interrupt. -/
theorem idle_does_not_halt_cex :
    idleInstr = MspInstr.nop ∧ haltsUntilInterrupt idleInstr = false :=
  ⟨rfl, rfl⟩

/-- Claim C9 (amended): the idle operation of this instantiation is the
degraded fallback `nop`, which does not halt the processor until an
interrupt; it is side-effect-free with respect to program state: any
`waitForInterrupt` step leaves the wake flag unchanged (and merely returns
control to the top of the loop), and it only fires with the flag clear. -/
theorem idle_step_frame :
    idleInstr = MspInstr.nop
    ∧ haltsUntilInterrupt idleInstr = false
    ∧ (∀ s s' : LoopState, Step s Event.waitForInterrupt s' →
        s'.flag = s.flag ∧ s'.pc = Pc.polling ∧ s.flag = false) := by
  refine ⟨rfl, rfl, ?_⟩
  intro s s' h
  obtain ⟨h1, h2, h3⟩ := step_wait_post h
  exact ⟨h2, h1, h3⟩

/-- Witness for `idle_step_frame`: the idle step at its concrete state. -/
theorem idle_step_frame_witness :
    (⟨Pc.polling, false⟩ : LoopState).flag = (⟨Pc.checking, false⟩ : LoopState).flag
    ∧ (⟨Pc.polling, false⟩ : LoopState).pc = Pc.polling
    ∧ (⟨Pc.checking, false⟩ : LoopState).flag = false :=
  idle_step_frame.2.2 ⟨Pc.checking, false⟩ ⟨Pc.polling, false⟩
    (Step.loop LoopStep.csWait)

/-- Claim C10: the wake callback registered by `Executor::new` ignores its
context argument (its effect on the flag is identical for any two contexts),
every instance built by `Executor::new` is the same value — in particular all
of them write the one process-wide static `SIGNAL_WORK_THREAD_MODE` through
the same callback, registered with the null context — so one executor's
`signal` is observed and consumed by another's `consume_if_set`. -/
theorem wake_ignores_context_and_flag_shared (c₁ c₂ : Ctx) (f : Bool) :
    (Executor.new ()).inner.wake c₁ f = (Executor.new ()).inner.wake c₂ f
    ∧ (∀ u₁ u₂ : Unit, Executor.new u₁ = Executor.new u₂)
    ∧ (∀ u : Unit, (Executor.new u).inner.wakeTarget = GlobalVar.signalWorkThreadMode)
    ∧ (∀ u : Unit, (Executor.new u).inner.context = nullCtx)
    ∧ (consume_if_set ((Executor.new ()).inner.wake c₁ f)).1 = true := by
  refine ⟨rfl, ?_, fun _ => rfl, fun _ => rfl, rfl⟩
  intro u₁ u₂
  cases u₁
  cases u₂
  rfl

end Msp430
